import Mathlib

/-!
Verification of the tinylog console log renderer.

Strings of the Rust source are embedded as `List Char` (`Str`); the
`StringLike` trait (src/util.rs) becomes a type class, the `Indented`
decorator a structure over any sink, and the prefix / field / span
renderers pure functions from the inputs the Rust code reads to the
text they append.  Machine integers of the source are `Nat`/`Int`;
`Instant`s are modelled as nanosecond counts.  External formatting
crates (`itoa`, `ryu`) and std's `Debug for str` are modelled from
their documented output, as noted on each definition.
-/

set_option maxHeartbeats 1000000

/-- A Rust `String`/`str`, embedded as its character sequence. -/
abbrev Str := List Char

/-- Decimal digits of `n`, most significant first, with explicit fuel so
that the definition is structurally recursive (fuel `n + 1` always
suffices).  Models `itoa::Buffer::format` for unsigned integers. -/
def natDigitsCore : Nat → Nat → Str
  | 0, _ => []
  | fuel + 1, n =>
    if n < 10 then [Nat.digitChar n]
    else natDigitsCore fuel (n / 10) ++ [Nat.digitChar (n % 10)]

/-- Decimal rendering of a natural number; models `itoa::Buffer::format`. -/
def natDigits (n : Nat) : Str :=
  natDigitsCore (n + 1) n

/-- Decimal rendering of a signed integer; models `itoa::Buffer::format`
for signed integers. -/
def intDigits (i : Int) : Str :=
  if i < 0 then '-' :: natDigits i.natAbs else natDigits i.natAbs

/-- Lowercase hexadecimal digits of `n` (fuel-based, fuel `n + 1` always
suffices).  Models the `{:x}`-style rendering used inside Rust's
`\u{...}` character escapes. -/
def hexDigitsCore : Nat → Nat → Str
  | 0, _ => []
  | fuel + 1, n =>
    if n < 16 then [Nat.digitChar n]
    else hexDigitsCore fuel (n / 16) ++ [Nat.digitChar (n % 16)]

/-- Lowercase hexadecimal rendering of a natural number. -/
def hexDigits (n : Nat) : Str :=
  hexDigitsCore (n + 1) n

/-- Severity levels, from src/compat.rs (`enum Level`). -/
inductive Level
  | trace
  | debug
  | info
  | warn
  | error
deriving DecidableEq, Repr

/-- Event metadata, from src/compat.rs (`struct Metadata`): severity,
`::`-delimited module path, optional source line. -/
structure Metadata where
  level : Level
  module_path : Str
  line : Option Nat
deriving DecidableEq, Repr

/-- The `StringLike` trait of src/util.rs: an infallible append-only
text sink.  Methods consume and return the sink since the embedding is
pure. -/
class StringLike (σ : Type) where
  push : σ → Char → σ
  push_str : σ → Str → σ
  reserve : σ → Nat → σ

/-- The `impl StringLike for String` of src/util.rs: `push`/`push_str`
append, `reserve` is a capacity hint with no observable effect. -/
instance strStringLike : StringLike Str where
  push s c := s ++ [c]
  push_str s t := s ++ t
  reserve s _ := s

/-- Push `n` space characters, one at a time; models the
`for _ in 0..self.indent { push(' ') }` loops of src/util.rs. -/
def pushSpaces {σ : Type} [StringLike σ] (o : σ) : Nat → σ
  | 0 => o
  | n + 1 => StringLike.push (pushSpaces o n) ' '

/-- Rust `str::split('\n')`: segments between newlines, at least one
(possibly empty) segment, an empty trailing segment after a final
newline. -/
def splitNl : Str → List Str
  | [] => [[]]
  | c :: cs =>
    if c = '\n' then [] :: splitNl cs
    else
      match splitNl cs with
      | [] => [[c]]
      | seg :: segs => (c :: seg) :: segs

/-- The `Indented` decorator of src/util.rs: wraps a sink and an indent
width. -/
structure Indented (σ : Type) where
  output : σ
  indent : Nat

/-- `Indented::push` (src/util.rs): a newline is followed by `indent`
spaces, any other character is forwarded verbatim. -/
def Indented.push {σ : Type} [StringLike σ] (ib : Indented σ) (c : Char) : Indented σ :=
  if c = '\n' then
    let o := StringLike.reserve ib.output (ib.indent + 1)
    let o := StringLike.push o '\n'
    let o := pushSpaces o ib.indent
    { ib with output := o }
  else
    { ib with output := StringLike.push ib.output c }

/-- `Indented::push_str` (src/util.rs): split on `'\n'`, write the first
segment verbatim, and each further segment after a newline plus
`indent` spaces. -/
def Indented.push_str {σ : Type} [StringLike σ] (ib : Indented σ) (s : Str) : Indented σ :=
  match splitNl s with
  | [] => ib
  | first_line :: lines =>
    let o := StringLike.push_str ib.output first_line
    let o := lines.foldl (fun acc line =>
      let acc := StringLike.reserve acc (ib.indent + 1 + line.length)
      let acc := StringLike.push acc '\n'
      let acc := pushSpaces acc ib.indent
      StringLike.push_str acc line) o
    { ib with output := o }

/-- `impl StringLike for Indented` (src/util.rs). -/
instance indentedStringLike {σ : Type} [StringLike σ] : StringLike (Indented σ) where
  push := Indented.push
  push_str := Indented.push_str
  reserve ib n := { ib with output := StringLike.reserve ib.output n }

/-- Feeding a string through `Indented::push` one character at a time. -/
def Indented.pushChars {σ : Type} [StringLike σ] (ib : Indented σ) (s : Str) : Indented σ :=
  s.foldl Indented.push ib

/-- Character-at-a-time specification of the indenting decorator's
output: every newline is expanded to a newline followed by `n` spaces,
all other characters pass through. -/
def processChars (n : Nat) : Str → Str
  | [] => []
  | c :: cs =>
    (if c = '\n' then '\n' :: List.replicate n ' ' else [c]) ++ processChars n cs

/-- Icon glyph, lowercase tag text and bright-color code for each
severity, from the `match meta.level` table in `Logger::write_prefix`
(src/lib.rs). -/
def levelTriple : Level → Char × Str × Char
  | .trace => ('→', ("trace".data), '4')
  | .debug => ('○', ("debug".data), '6')
  | .info => ('●', ("info".data), '2')
  | .warn => ('⚠', ("warn".data), '3')
  | .error => ('✘', ("error".data), '1')

/-- Rust `str::split("::")`: segments between non-overlapping `::`
occurrences, scanned left to right. -/
def splitModPath : Str → List Str
  | [] => [[]]
  | ':' :: ':' :: rest => [] :: splitModPath rest
  | c :: rest =>
    match splitModPath rest with
    | [] => [[c]]
    | seg :: segs => (c :: seg) :: segs

/-- A timestamp already converted to the logger's timezone; the fields
`Logger::write_prefix` reads from `time::OffsetDateTime`
(hour 0–23, minute, second, year, month 1–12, day). -/
structure Time where
  hour : Nat
  minute : Nat
  second : Nat
  year : Int
  month : Nat
  day : Nat
deriving DecidableEq, Repr

/-- The 12-hour conversion of `Logger::write_prefix` (src/lib.rs):
`let mut hour = time.hour(); let mut am_or_pm = 'A';
if hour >= 12 { am_or_pm = 'P'; if hour != 12 { hour -= 12; } }`. -/
def hour_am_pm (hour : Nat) : Nat × Char :=
  if hour ≥ 12 then
    if hour ≠ 12 then (hour - 12, 'P') else (hour, 'P')
  else (hour, 'A')

/-- The `PrefixOptions` struct of src/lib.rs. -/
structure PrefixOptions where
  align : Bool
  time : Option Time

/-- Alignment-space, icon and level-tag section of
`Logger::write_prefix` (src/lib.rs, up to the space after the level
text). -/
def write_icon_level {σ : Type} [StringLike σ] (color : Bool) (align : Bool)
    (level : Level) (out : σ) : σ :=
  let icon := (levelTriple level).1
  let level_str := (levelTriple level).2.1
  let color_code := (levelTriple level).2.2
  let out := if align = true ∧ (level = Level.info ∨ level = Level.warn)
    then StringLike.push out ' ' else out
  let out := if color
    then StringLike.push (StringLike.push (StringLike.push_str out ("\x1b[9".data)) color_code) 'm'
    else out
  let out := StringLike.push (StringLike.push out icon) ' '
  let out := if color then StringLike.push_str out ("\x1b[1;4m".data) else out
  let out := StringLike.push_str out level_str
  let out := if color
    then StringLike.push (StringLike.push (StringLike.push_str out ("\x1b[;3".data)) color_code) 'm'
    else out
  StringLike.push out ' '

/-- Module-path section of `Logger::write_prefix` (src/lib.rs): split on
`::`, first segment verbatim, later segments each preceded by `/`. -/
def write_module_path {σ : Type} [StringLike σ] (mp : Str) (out : σ) : σ :=
  match splitModPath mp with
  | [] => out
  | first_part :: parts =>
    parts.foldl (fun acc part => StringLike.push_str (StringLike.push acc '/') part)
      (StringLike.push_str out first_part)

/-- Line-number section of `Logger::write_prefix` (src/lib.rs): for a
present line, a dim escape when colored, then `:` and the decimal line. -/
def write_line {σ : Type} [StringLike σ] (color : Bool) (line : Option Nat) (out : σ) : σ :=
  match line with
  | some l =>
    let out := if color then StringLike.push_str out ("\x1b[2m".data) else out
    StringLike.push_str (StringLike.push out ':') (natDigits l)
  | none => out

/-- Timestamp section of `Logger::write_prefix` (src/lib.rs): one space,
a reset-dim escape when colored, then the custom
`h:mm:ss-AM-year/month/day` rendering. -/
def write_time {σ : Type} [StringLike σ] (color : Bool) (t : Time) (out : σ) : σ :=
  let out := StringLike.push out ' '
  let out := if color then StringLike.push_str out ("\x1b[;2m".data) else out
  let hp := hour_am_pm t.hour
  let out := StringLike.push (StringLike.push_str out (natDigits hp.1)) ':'
  let out := if t.minute < 10 then StringLike.push out '0' else out
  let out := StringLike.push (StringLike.push_str out (natDigits t.minute)) ':'
  let out := if t.second < 10 then StringLike.push out '0' else out
  let out := StringLike.push_str out (natDigits t.second)
  let out := StringLike.push (StringLike.push out '-') hp.2
  let out := StringLike.push_str out ("M-".data)
  let out := StringLike.push_str out (intDigits t.year)
  let out := StringLike.push_str (StringLike.push out '/') (natDigits t.month)
  StringLike.push_str (StringLike.push out '/') (natDigits t.day)

/-- `Logger::write_prefix` (src/lib.rs): icon and level tag, slash-joined
module path, optional `:line`, optional timestamp, final reset escape
when colored. -/
def write_prefix' {σ : Type} [StringLike σ] (color : Bool) (meta : Metadata)
    (options : PrefixOptions) (out : σ) : σ :=
  let out := write_icon_level color options.align meta.level out
  let out := write_module_path meta.module_path out
  let out := write_line color meta.line out
  let out := match options.time with
    | some t => write_time color t out
    | none => out
  if color then StringLike.push_str out ("\x1b[m".data) else out

/-- Escape of one character inside a double-quoted Rust string debug
rendering.  Models std's `char::escape_debug` as used by
`impl Debug for str`: the named escapes for quote, backslash, newline,
carriage return and tab, `\u{..}` escapes for other control characters,
everything else verbatim (Unicode printability beyond the ASCII range
is approximated as printable). -/
def escapeDebugChar (c : Char) : Str :=
  if c = '"' then ['\\', '"']
  else if c = '\\' then ['\\', '\\']
  else if c = '\n' then ['\\', 'n']
  else if c = '\r' then ['\\', 'r']
  else if c = '\t' then ['\\', 't']
  else if c.toNat < 32 ∨ c.toNat = 127 then
    '\\' :: 'u' :: '{' :: (hexDigits c.toNat ++ ['}'])
  else [c]

/-- Models `format!("{value:?}")` for a `&str` value: double quotes
around the escaped characters. -/
def debugQuote (v : Str) : Str :=
  '"' :: (v.flatMap escapeDebugChar ++ ['"'])

/-- One typed field value as delivered to `FieldVisitor`
(src/tracing_impl/visitor.rs).  `debug` carries the text produced by
formatting the opaque `&dyn Debug` value (that formatting happens in
the `tracing`/std machinery, outside this crate); `f64` carries the
text produced by `ryu::Buffer::format` for the float, floating-point
formatting being external as well. -/
inductive FieldValue
  | str (v : Str)
  | debug (rendered : Str)
  | bool (b : Bool)
  | u64 (n : Nat)
  | u128 (n : Nat)
  | i64 (n : Int)
  | i128 (n : Int)
  | f64 (rendered : Str)
deriving DecidableEq, Repr

/-- `FieldVisitor::write_field` (src/tracing_impl/visitor.rs): a newline,
then `name: ` unless the field is literally named `message`. -/
def write_field {σ : Type} [StringLike σ] (out : σ) (name : Str) : σ :=
  let out := StringLike.push out '\n'
  if name ≠ ("message".data) then
    StringLike.push_str (StringLike.push_str out name) (": ".data)
  else out

/-- Dispatch of one recorded field to the matching `FieldVisitor` method
(src/tracing_impl/visitor.rs): `record_str` pushes a `message` string
verbatim and debug-quotes any other string; the numeric and bool
methods append their decimal/text rendering; `record_debug` and
`record_f64` append the externally rendered text. -/
def record_one {σ : Type} [StringLike σ] (out : σ) (fv : Str × FieldValue) : σ :=
  match fv with
  | (name, .str value) =>
    let out := write_field out name
    if name = ("message".data) then StringLike.push_str out value
    else StringLike.push_str out (debugQuote value)
  | (name, .debug rendered) => StringLike.push_str (write_field out name) rendered
  | (name, .bool b) =>
    StringLike.push_str (write_field out name) (if b then ("true".data) else ("false".data))
  | (name, .u64 n) => StringLike.push_str (write_field out name) (natDigits n)
  | (name, .u128 n) => StringLike.push_str (write_field out name) (natDigits n)
  | (name, .i64 n) => StringLike.push_str (write_field out name) (intDigits n)
  | (name, .i128 n) => StringLike.push_str (write_field out name) (intDigits n)
  | (name, .f64 rendered) => StringLike.push_str (write_field out name) rendered

/-- Running a `FieldVisitor` over a record's fields in order, as
`attrs.record`, `values.record` and `event.record` do. -/
def record_all {σ : Type} [StringLike σ] (out : σ) (fields : List (Str × FieldValue)) : σ :=
  fields.foldl record_one out

/-- Per-span cached state, from `struct SpanData`
(src/tracing_impl/mod.rs).  The `Instant` creation timestamp is
modelled as a nanosecond count. -/
structure SpanData where
  content : Str
  prefix_end_index : Nat
  timestamp : Nat
deriving DecidableEq, Repr

/-- `Layer::on_record` (src/tracing_impl/mod.rs): run a `FieldVisitor`
over the new values, appending their text to the span's cached
buffer. -/
def on_record (data : SpanData) (values : List (Str × FieldValue)) : SpanData :=
  { data with content := record_all data.content values }

/-- `Layer::on_new_span` (src/tracing_impl/mod.rs): render the prefix
(no alignment, no timestamp) into a fresh buffer, remember where it
ends, record the creation instant, then append the initial fields. -/
def on_new_span (color : Bool) (meta : Metadata) (timestamp : Nat)
    (fields : List (Str × FieldValue)) : SpanData :=
  let content : Str := []
  let content := write_prefix' color meta { align := false, time := none } content
  let prefix_end_index := content.length
  let content := record_all content fields
  { content := content, prefix_end_index := prefix_end_index, timestamp := timestamp }

/-- A `std::time::Duration`, as produced by subtracting two `Instant`s:
whole seconds and the sub-second nanosecond remainder. -/
structure Duration where
  secs : Nat
  subsec_nanos : Nat
deriving DecidableEq, Repr

/-- Duration from a nanosecond count (the model of `Instant`
subtraction). -/
def Duration.ofNanos (d : Nat) : Duration :=
  { secs := d / 1000000000, subsec_nanos := d % 1000000000 }

/-- Models `ryu::Buffer::format` applied to the `f64` computation
`(seconds as f64) + ((milliseconds as f64) / 1000.0)` of
`Layer::on_event` (src/tracing_impl/mod.rs), with `milliseconds < 1000`:
the shortest round-tripping decimal, i.e. the integer part, a dot, and
the milliseconds as three fractional digits with trailing zeros
trimmed but at least one digit kept. -/
def ryuSecs (seconds milliseconds : Nat) : Str :=
  natDigits seconds ++ '.' ::
    (if milliseconds % 10 ≠ 0 then
      [Nat.digitChar (milliseconds / 100), Nat.digitChar (milliseconds / 10 % 10),
        Nat.digitChar (milliseconds % 10)]
    else if milliseconds / 10 % 10 ≠ 0 then
      [Nat.digitChar (milliseconds / 100), Nat.digitChar (milliseconds / 10 % 10)]
    else [Nat.digitChar (milliseconds / 100)])

/-- Elapsed-time annotation of `Layer::on_event`
(src/tracing_impl/mod.rs): when at least one millisecond has passed,
a space, `(`, the integer milliseconds plus `m` for sub-second
durations or the ryu-rendered seconds otherwise, then `s ago)`,
wrapped in dim color when enabled. -/
def write_elapsed (color : Bool) (time_passed : Duration) (i_buf : Indented Str) :
    Indented Str :=
  if time_passed.subsec_nanos ≥ 1000000 ∨ time_passed.secs > 0 then
    let seconds := time_passed.secs
    let milliseconds := time_passed.subsec_nanos / 1000000
    let i_buf := Indented.push i_buf ' '
    let i_buf := if color then Indented.push_str i_buf ("\x1b[2m".data) else i_buf
    let i_buf := Indented.push i_buf '('
    let i_buf := if seconds = 0 then
        Indented.push (Indented.push_str i_buf (natDigits milliseconds)) 'm'
      else Indented.push_str i_buf (ryuSecs seconds milliseconds)
    let i_buf := Indented.push_str i_buf ("s ago)".data)
    if color then Indented.push_str i_buf ("\x1b[m".data) else i_buf
  else i_buf

/-- One ancestor span as seen from `span.scope()` at event time: its
cached `SpanData` and its static name. -/
structure SpanView where
  data : SpanData
  name : Str
deriving DecidableEq, Repr

/-- The per-ancestor body of the `for span in parent_span.scope()` loop
of `Layer::on_event` (src/tracing_impl/mod.rs): dedent by 2, newline,
cached prefix, re-indent, elapsed-time annotation, optional span name,
cached field text. -/
def render_span (color : Bool) (event_timestamp : Nat) (i_buf : Indented Str)
    (span : SpanView) : Indented Str :=
  let data := span.data
  let prefix_part := data.content.take data.prefix_end_index
  let fields_part := data.content.drop data.prefix_end_index
  let i_buf := { i_buf with indent := i_buf.indent - 2 }
  let i_buf := Indented.push i_buf '\n'
  let i_buf := Indented.push_str i_buf prefix_part
  let i_buf := { i_buf with indent := i_buf.indent + 2 }
  let time_passed := Duration.ofNanos (event_timestamp - data.timestamp)
  let i_buf := write_elapsed color time_passed i_buf
  let i_buf := if span.name ≠ [] then
      Indented.push_str (Indented.push i_buf '\n') span.name
    else i_buf
  Indented.push_str i_buf fields_part

/-- `Layer::on_event` (src/tracing_impl/mod.rs): the bytes handed to the
single `write_all` call — prefix with alignment and timestamp, the
event's fields through an 8-space `Indented`, the ancestor chain
(innermost first) when the event is inside a span, and the final
newline.  Buffer acquisition (`with_local_buf`, modelled separately)
and the output lock are orthogonal to the produced bytes and elided. -/
def on_event (color : Bool) (event_timestamp : Nat) (time : Option Time)
    (meta : Metadata) (fields : List (Str × FieldValue))
    (scope : Option (List SpanView)) : Str :=
  let buf : Str := []
  let buf := write_prefix' color meta { align := true, time := time } buf
  let i_buf : Indented Str := { output := buf, indent := 8 }
  let i_buf := record_all i_buf fields
  let i_buf := match scope with
    | some spans => spans.foldl (render_span color event_timestamp) i_buf
    | none => i_buf
  i_buf.output ++ ['\n']

/-- The state of one thread's `BUF` slot in `with_local_buf`
(src/util.rs): whether the thread-local has been destroyed
(`LocalKey::try_with` fails), whether the `RefCell` is currently
mutably borrowed by an enclosing call, and the buffer's contents. -/
structure LocalBufState where
  destroyed : Bool
  borrowed : Bool
  buf : Str
deriving DecidableEq, Repr

/-- `with_local_buf` (src/util.rs).  The closure `f` receives exclusive
access to a buffer and may rewrite it; the model returns `f`'s result
together with the slot state after the call.  When the slot is usable
the thread-local buffer is used and keeps `f`'s writes; otherwise `f`
runs on a fresh `String::default()` that is dropped afterwards. -/
def with_local_buf {α : Type} (st : LocalBufState) (f : Str → Str × α) :
    α × LocalBufState :=
  if st.destroyed = false ∧ st.borrowed = false then
    let r := f st.buf
    (r.2, { st with buf := r.1 })
  else
    ((f []).2, st)

/-- The `record.args()` view used by `Log::log` (src/log_impl.rs):
either `args.as_str()` is `Some` literal string, or the arguments are
a true format template; in the latter case the payload models running
the format against an infallible sink — `Except.ok` with the rendered
text, or `Except.error` when a user `Display` impl returns `Err`. -/
inductive LogArgs
  | str (s : Str)
  | fmt (result : Except Unit Str)
deriving Repr

/-- How a logging call ends in the model: a normal return or a panic
with the `expect` message. -/
inductive Outcome (α : Type)
  | ok (a : α)
  | panicked (msg : String)
deriving DecidableEq, Repr

/-- The buffer-building part of `Log::log` (src/log_impl.rs, the body of
the `with_local_buf` closure before the output lock): clear, prefix
with alignment and timestamp, then the message through an 8-space
`Indented` — a nonempty literal string verbatim after a newline, a
format template rendered after a newline (`Err` from the template is
the `expect("fmt error")` panic), an empty literal nothing — then the
trailing newline. -/
def log_render (color : Bool) (time : Option Time) (meta : Metadata)
    (args : LogArgs) : Except String Str :=
  let buf : Str := []
  let buf := write_prefix' color meta { align := true, time := time } buf
  match args with
  | .str s =>
    if s ≠ [] then
      let indented : Indented Str := { output := buf, indent := 8 }
      let indented := Indented.push indented '\n'
      let indented := Indented.push_str indented s
      Except.ok (indented.output ++ ['\n'])
    else Except.ok (buf ++ ['\n'])
  | .fmt result =>
    let indented : Indented Str := { output := buf, indent := 8 }
    let indented := Indented.push indented '\n'
    match result with
    | .ok rendered => Except.ok ((Indented.push_str indented rendered).output ++ ['\n'])
    | .error _ => Except.error ("fmt error")

/-- `Log::log` for `Logger` (src/log_impl.rs): render the event into a
private buffer, then write it to the locked output in one
`write_all` call.  `write_result` models the destination's answer to
that call.  Both `expect` calls of the source become `panicked`
outcomes; `ok` carries the bytes written. -/
def Logger.log (color : Bool) (time : Option Time) (meta : Metadata)
    (args : LogArgs) (write_result : Str → Except Unit Unit) : Outcome Str :=
  match log_render color time meta args with
  | .error msg => .panicked msg
  | .ok buf =>
    match write_result buf with
    | .ok _ => .ok buf
    | .error _ => .panicked ("io error")

/-- Two-digit zero-padded decimal, following the spec's wording for the
minute and second fields: a leading `0` for values below ten, then the
decimal digits. -/
def pad2 (n : Nat) : Str :=
  (if n < 10 then ['0'] else []) ++ natDigits n

/-- The text a recorded value contributes after the optional
`name: ` header, per `FieldVisitor` branch (src/tracing_impl/visitor.rs);
for a string value this is its debug-quoted form (the `message`/verbatim
special case is handled separately). -/
def valueText : FieldValue → Str
  | .str v => debugQuote v
  | .debug rendered => rendered
  | .bool b => if b then ("true".data) else ("false".data)
  | .u64 n => natDigits n
  | .u128 n => natDigits n
  | .i64 n => intDigits n
  | .i128 n => intDigits n
  | .f64 rendered => rendered

/-- Absence of the ANSI escape character (0x1B) from a string. -/
abbrev EscFree (s : Str) : Prop := '\x1b' ∉ s

/-- Escape-freedom of one recorded field: its name and any externally
rendered or verbatim text it carries contain no 0x1B.  (Numeric and
boolean values render to fixed digit/letter text and need no side
condition.) -/
def FieldEscFree (fv : Str × FieldValue) : Prop :=
  EscFree fv.1 ∧
    match fv.2 with
    | .str v => EscFree v
    | .debug rendered => EscFree rendered
    | .f64 rendered => EscFree rendered
    | _ => True

/-- Escape-freedom of an ancestor span as rendered at event time: its
cached buffer and its name contain no 0x1B. -/
def SpanEscFree (sv : SpanView) : Prop :=
  EscFree sv.data.content ∧ EscFree sv.name

/- ————————————————————————————————————————————————————————————————
   Theorems.
   ———————————————————————————————————————————————————————————————— -/

@[simp] theorem str_push (s : Str) (c : Char) :
    StringLike.push s c = s ++ [c] := rfl

@[simp] theorem str_push_str (s t : Str) :
    StringLike.push_str s t = s ++ t := rfl

@[simp] theorem str_reserve (s : Str) (n : Nat) :
    StringLike.reserve s n = s := rfl

theorem pushSpaces_str (o : Str) (n : Nat) :
    pushSpaces o n = o ++ List.replicate n ' ' := by
  induction n with
  | zero => simp [pushSpaces]
  | succ n ih =>
    simp [pushSpaces, ih, List.replicate_succ']

theorem indented_push_eq (ib : Indented Str) (c : Char) :
    Indented.push ib c =
      { output := ib.output ++ (if c = '\n' then '\n' :: List.replicate ib.indent ' ' else [c]),
        indent := ib.indent } := by
  by_cases h : c = '\n' <;> simp [Indented.push, h, pushSpaces_str]

theorem pushChars_eq (ib : Indented Str) (s : Str) :
    Indented.pushChars ib s =
      { output := ib.output ++ processChars ib.indent s, indent := ib.indent } := by
  induction s generalizing ib with
  | nil => simp [Indented.pushChars, processChars]
  | cons c cs ih =>
    have step : Indented.pushChars ib (c :: cs) = Indented.pushChars (Indented.push ib c) cs := rfl
    rw [step, ih, indented_push_eq]
    simp [processChars]

theorem splitNl_ne_nil (s : Str) : splitNl s ≠ [] := by
  cases s with
  | nil => simp [splitNl]
  | cons c cs =>
    simp only [splitNl]
    split
    · simp
    · split <;> simp

theorem push_str_foldl_aux (n : Nat) (s : Str) (out : Str) :
    (match splitNl s with
      | [] => out
      | first_line :: lines =>
        lines.foldl (fun acc line => acc ++ '\n' :: (List.replicate n ' ' ++ line))
          (out ++ first_line)) =
      out ++ processChars n s := by
  induction s generalizing out with
  | nil => simp [splitNl, processChars]
  | cons c cs ih =>
    obtain ⟨first, lines, hs⟩ : ∃ f l, splitNl cs = f :: l := by
      cases hsp : splitNl cs with
      | nil => exact absurd hsp (splitNl_ne_nil cs)
      | cons f l => exact ⟨f, l, rfl⟩
    by_cases h : c = '\n'
    · subst h
      have ihx := ih (out ++ '\n' :: List.replicate n ' ')
      rw [hs] at ihx
      simpa [splitNl, hs, processChars] using ihx
    · have ihx := ih (out ++ [c])
      rw [hs] at ihx
      simpa [splitNl, h, hs, processChars] using ihx

theorem push_str_eq (ib : Indented Str) (s : Str) :
    Indented.push_str ib s =
      { output := ib.output ++ processChars ib.indent s, indent := ib.indent } := by
  have aux := push_str_foldl_aux ib.indent s ib.output
  obtain ⟨first, lines, hs⟩ : ∃ f l, splitNl s = f :: l := by
    cases hsp : splitNl s with
    | nil => exact absurd hsp (splitNl_ne_nil s)
    | cons f l => exact ⟨f, l, rfl⟩
  rw [hs] at aux
  simp only [Indented.push_str, hs, str_reserve, str_push, str_push_str, pushSpaces_str,
    List.append_assoc, List.singleton_append]
  simp only [List.singleton_append] at aux
  simp only [Indented.mk.injEq, and_true]
  exact aux

theorem processChars_cons_nl (n : Nat) (cs : Str) :
    processChars n ('\n' :: cs) = '\n' :: (List.replicate n ' ' ++ processChars n cs) := by
  simp [processChars]

theorem processChars_cons_other (n : Nat) (c : Char) (cs : Str) (hc : c ≠ '\n') :
    processChars n (c :: cs) = c :: processChars n cs := by
  simp [processChars, hc]

theorem processChars_newline (n : Nat) (s : Str) :
    ∀ i j, (processChars n s)[i]? = some '\n' → j < n →
      (processChars n s)[i + 1 + j]? = some ' ' := by
  induction s with
  | nil => intro i j h _; simp [processChars] at h
  | cons c cs ih =>
    intro i j h hj
    by_cases hc : c = '\n'
    · subst hc
      rw [processChars_cons_nl] at h ⊢
      match i with
      | 0 =>
        have hidx : 0 + 1 + j = j + 1 := by omega
        rw [hidx, List.getElem?_cons_succ, List.getElem?_append, List.getElem?_replicate]
        simp [hj]
      | k + 1 =>
        rw [List.getElem?_cons_succ, List.getElem?_append] at h
        by_cases hk : k < (List.replicate n ' ').length
        · rw [if_pos hk, List.getElem?_replicate] at h
          simp only [List.length_replicate] at hk
          rw [if_pos hk] at h
          exact absurd (Option.some.inj h) (by decide)
        · rw [if_neg hk] at h
          simp only [List.length_replicate] at hk h
          push_neg at hk
          have h2 := ih (k - n) j h hj
          have hidx : k + 1 + 1 + j = (n + ((k - n) + 1 + j)) + 1 := by omega
          rw [hidx, List.getElem?_cons_succ, List.getElem?_append]
          simp only [List.length_replicate]
          rw [if_neg (by omega)]
          have hidx2 : n + ((k - n) + 1 + j) - n = (k - n) + 1 + j := by omega
          rw [hidx2]
          exact h2
    · rw [processChars_cons_other n c cs hc] at h ⊢
      match i with
      | 0 =>
        rw [List.getElem?_cons_zero] at h
        exact absurd (Option.some.inj h) hc
      | k + 1 =>
        rw [List.getElem?_cons_succ] at h
        have h2 := ih k j h hj
        have hidx : k + 1 + 1 + j = (k + 1 + j) + 1 := by omega
        rw [hidx, List.getElem?_cons_succ]
        exact h2

/-- C2: for every indent width and string, one `push_str(s)` call on the
indenting decorator produces exactly the same state (and thus the same
output in the wrapped sink) as feeding `s` character by character
through `push`; both append `processChars` of the input, in which every
newline is immediately followed by `indent` space characters. -/
theorem claim_c2 (ib : Indented Str) (s : Str) :
    Indented.push_str ib s = Indented.pushChars ib s
    ∧ (Indented.push_str ib s).output = ib.output ++ processChars ib.indent s
    ∧ (∀ i j, (processChars ib.indent s)[i]? = some '\n' → j < ib.indent →
        (processChars ib.indent s)[i + 1 + j]? = some ' ') := by
  refine ⟨?_, ?_, processChars_newline ib.indent s⟩
  · rw [push_str_eq, pushChars_eq]
  · rw [push_str_eq]

theorem claim_c2_witness :
    (processChars 2 ("a\nb".data))[1]? = some '\n'
    ∧ (0 : Nat) < 2
    ∧ (processChars 2 ("a\nb".data))[1 + 1 + 0]? = some ' '
    ∧ Indented.push_str { output := ("x".data), indent := 2 } ("a\nb".data) =
        Indented.pushChars { output := ("x".data), indent := 2 } ("a\nb".data) :=
  ⟨by decide, by decide,
    (claim_c2 { output := ("x".data), indent := 2 } ("a\nb".data)).2.2 1 0 (by decide) (by decide),
    (claim_c2 { output := ("x".data), indent := 2 } ("a\nb".data)).1⟩

theorem splitModPath_ne_nil (s : Str) : splitModPath s ≠ [] := by
  unfold splitModPath
  split
  · simp
  · simp
  · split <;> simp

theorem foldl_slash_flat (parts : List Str) (acc : Str) :
    parts.foldl (fun a part => (a ++ ['/']) ++ part) acc =
      acc ++ parts.flatMap (fun p => '/' :: p) := by
  induction parts generalizing acc with
  | nil => simp
  | cons p ps ih =>
    rw [List.foldl_cons]
    simpa using ih ((acc ++ ['/']) ++ p)

theorem intercalate_slash (first : Str) (parts : List Str) :
    List.intercalate ['/'] (first :: parts) =
      first ++ parts.flatMap (fun p => '/' :: p) := by
  induction parts generalizing first with
  | nil => simp [List.intercalate]
  | cons p ps ih =>
    rw [show List.intercalate ['/'] (first :: p :: ps) =
        first ++ ['/'] ++ List.intercalate ['/'] (p :: ps) by
      simp [List.intercalate, List.intersperse]]
    simp [ih p]

theorem write_icon_level_str (align : Bool) (level : Level) (out : Str) :
    write_icon_level false align level out =
      out ++ (if align = true ∧ (level = Level.info ∨ level = Level.warn) then [' '] else [])
        ++ ((levelTriple level).1 :: ' ' :: (levelTriple level).2.1) ++ [' '] := by
  simp only [write_icon_level, Bool.false_eq_true, if_false, str_push, str_push_str]
  split <;> simp

theorem write_module_path_str (mp : Str) (out : Str) :
    write_module_path mp out = out ++ List.intercalate ['/'] (splitModPath mp) := by
  obtain ⟨first, parts, hs⟩ : ∃ f l, splitModPath mp = f :: l := by
    cases hsp : splitModPath mp with
    | nil => exact absurd hsp (splitModPath_ne_nil mp)
    | cons f l => exact ⟨f, l, rfl⟩
  simp only [write_module_path, hs, str_push, str_push_str]
  rw [foldl_slash_flat, intercalate_slash]
  simp

theorem write_line_str (line : Option Nat) (out : Str) :
    write_line false line out =
      out ++ (match line with | some l => ':' :: natDigits l | none => []) := by
  cases line <;> simp [write_line]

theorem write_prefix_notime_str (meta : Metadata) (align : Bool) (out : Str) :
    write_prefix' false meta { align := align, time := none } out =
      out ++ (if align = true ∧ (meta.level = Level.info ∨ meta.level = Level.warn)
          then [' '] else [])
        ++ ((levelTriple meta.level).1 :: ' ' :: (levelTriple meta.level).2.1) ++ [' ']
        ++ List.intercalate ['/'] (splitModPath meta.module_path)
        ++ (match meta.line with | some l => ':' :: natDigits l | none => []) := by
  simp only [write_prefix', Bool.false_eq_true, if_false]
  rw [write_icon_level_str, write_module_path_str, write_line_str]

/-- C4: with color disabled, severity `Error`, module path `a::b::c`,
line 42 and no timestamp the prefix text is exactly `✘ error a/b/c:42`;
in general the prefix is the (possibly alignment-padded) icon and level
tag, the module path split on `::` and re-joined with `/` (first
segment unprefixed), and, for a present line number, `:` followed by
its decimal digits immediately after the module path. -/
theorem claim_c4 :
    (∀ align : Bool,
      write_prefix' false { level := .error, module_path := ("a::b::c".data), line := some 42 }
        { align := align, time := none } ([] : Str) = ("✘ error a/b/c:42".data))
    ∧ ∀ (meta : Metadata) (align : Bool) (out : Str),
        write_prefix' false meta { align := align, time := none } out =
          out ++ (if align = true ∧ (meta.level = Level.info ∨ meta.level = Level.warn)
              then [' '] else [])
            ++ ((levelTriple meta.level).1 :: ' ' :: (levelTriple meta.level).2.1) ++ [' ']
            ++ List.intercalate ['/'] (splitModPath meta.module_path)
            ++ (match meta.line with | some l => ':' :: natDigits l | none => []) := by
  constructor
  · decide
  · exact write_prefix_notime_str

theorem natDigitsCore_small (fuel m : Nat) (hf : 0 < fuel) (hm : m < 10) :
    natDigitsCore fuel m = [Nat.digitChar m] := by
  cases fuel with
  | zero => omega
  | succ f => simp [natDigitsCore, hm]

theorem natDigits_small (n : Nat) (h : n < 10) : natDigits n = [Nat.digitChar n] :=
  natDigitsCore_small (n + 1) n (by omega) h

theorem natDigits_two (n : Nat) (h10 : 10 ≤ n) (h100 : n < 100) :
    natDigits n = [Nat.digitChar (n / 10), Nat.digitChar (n % 10)] := by
  have h1 : natDigits n = natDigitsCore n (n / 10) ++ [Nat.digitChar (n % 10)] := by
    simp [natDigits, natDigitsCore, Nat.not_lt.mpr h10]
  rw [h1, natDigitsCore_small n (n / 10) (by omega) (by omega)]
  simp

theorem pad2_length (n : Nat) (h : n < 100) : (pad2 n).length = 2 := by
  by_cases h10 : n < 10
  · simp [pad2, h10, natDigits_small n h10]
  · simp [pad2, h10, natDigits_two n (by omega) h]

theorem natDigitsCore_ne_nil (fuel n : Nat) (hf : 0 < fuel) :
    natDigitsCore fuel n ≠ [] := by
  cases fuel with
  | zero => omega
  | succ f =>
    simp only [natDigitsCore]
    split <;> simp

theorem natDigitsCore_head (fuel : Nat) :
    ∀ n, n < fuel → 0 < n → (natDigitsCore fuel n).head? ≠ some '0' := by
  induction fuel with
  | zero => intro n h _; omega
  | succ f ih =>
    intro n hn h0
    by_cases h : n < 10
    · rw [natDigitsCore_small (f + 1) n (by omega) h]
      interval_cases n <;> decide
    · simp only [natDigitsCore, if_neg h]
      obtain ⟨d, rest, hc⟩ : ∃ d rest, natDigitsCore f (n / 10) = d :: rest := by
        cases hcc : natDigitsCore f (n / 10) with
        | nil => exact absurd hcc (natDigitsCore_ne_nil f (n / 10) (by omega))
        | cons d rest => exact ⟨d, rest, rfl⟩
      have hh := ih (n / 10) (by omega) (by omega)
      rw [hc] at hh ⊢
      simpa using hh

theorem natDigits_head (n : Nat) (h : 0 < n) : (natDigits n).head? ≠ some '0' :=
  natDigitsCore_head (n + 1) n (by omega) h

theorem write_time_str (t : Time) (out : Str) :
    write_time false t out =
      out ++ ' ' :: (natDigits (hour_am_pm t.hour).1
        ++ ':' :: (pad2 t.minute
        ++ ':' :: (pad2 t.second
        ++ '-' :: (hour_am_pm t.hour).2 :: 'M' :: '-'
          :: (intDigits t.year ++ '/' :: (natDigits t.month ++ '/' :: natDigits t.day))))) := by
  by_cases hm : t.minute < 10 <;> by_cases hs : t.second < 10 <;>
    simp [write_time, pad2, hm, hs]

theorem write_prefix_time_str (meta : Metadata) (align : Bool) (out : Str) (t : Time) :
    write_prefix' false meta { align := align, time := some t } out =
      write_time false t (write_prefix' false meta { align := align, time := none } out) := by
  simp [write_prefix']

/-- C5: with color disabled and any supplied timestamp, the prefix
renderer appends to the timestamp-free prefix exactly one space and
then the 12-hour hour (no leading zero), `:`, the zero-padded minute,
`:`, the zero-padded second, `-A` or `-P` plus `M-`, then
`year/month/day` as plain decimal numbers with the month as its 1–12
ordinal. -/
theorem claim_c5 (meta : Metadata) (align : Bool) (out : Str) (t : Time)
    (hm : t.minute < 60) (hs : t.second < 60) :
    write_prefix' false meta { align := align, time := some t } out =
      write_prefix' false meta { align := align, time := none } out
        ++ ' ' :: (natDigits (hour_am_pm t.hour).1
          ++ ':' :: (pad2 t.minute
          ++ ':' :: (pad2 t.second
          ++ '-' :: (hour_am_pm t.hour).2 :: 'M' :: '-'
            :: (intDigits t.year ++ '/' :: (natDigits t.month ++ '/' :: natDigits t.day)))))
    ∧ (pad2 t.minute).length = 2
    ∧ (pad2 t.second).length = 2
    ∧ (0 < (hour_am_pm t.hour).1 → (natDigits (hour_am_pm t.hour).1).head? ≠ some '0') :=
  ⟨by rw [write_prefix_time_str, write_time_str],
    pad2_length t.minute (by omega),
    pad2_length t.second (by omega),
    fun h0 => natDigits_head (hour_am_pm t.hour).1 h0⟩

theorem claim_c5_witness :
    (7 : Nat) < 60 ∧ (9 : Nat) < 60 ∧
      write_prefix' false { level := .info, module_path := ("m".data), line := none }
        { align := false,
          time := some { hour := 0, minute := 7, second := 9, year := 2024, month := 5, day := 3 } }
        ([] : Str) =
      write_prefix' false { level := .info, module_path := ("m".data), line := none }
        { align := false, time := none } ([] : Str)
        ++ ' ' :: (natDigits (hour_am_pm 0).1
          ++ ':' :: (pad2 7
          ++ ':' :: (pad2 9
          ++ '-' :: (hour_am_pm 0).2 :: 'M' :: '-'
            :: (intDigits 2024 ++ '/' :: (natDigits 5 ++ '/' :: natDigits 3))))) :=
  ⟨by decide, by decide,
    (claim_c5 { level := .info, module_path := ("m".data), line := none } false []
      { hour := 0, minute := 7, second := 9, year := 2024, month := 5, day := 3 }
      (by decide) (by decide)).1⟩

/-- C10: when the local hour is 0 the rendered hour is the single digit
`0` with the `-AM-` marker (not 12); hours below 12 keep their value
with `A`; hour 12 stays 12 with `P`; only hours 13–23 are reduced by
12 (with `P`). -/
theorem claim_c10 :
    (∀ (t : Time) (out : Str), t.hour = 0 →
      write_time false t out =
        out ++ ' ' :: ('0' :: ':' :: (pad2 t.minute
          ++ ':' :: (pad2 t.second
          ++ '-' :: 'A' :: 'M' :: '-'
            :: (intDigits t.year ++ '/' :: (natDigits t.month ++ '/' :: natDigits t.day))))))
    ∧ (∀ h : Nat, h < 12 → hour_am_pm h = (h, 'A'))
    ∧ hour_am_pm 12 = (12, 'P')
    ∧ (∀ h : Nat, 13 ≤ h → h ≤ 23 → hour_am_pm h = (h - 12, 'P')) := by
  refine ⟨?_, ?_, by decide, ?_⟩
  · intro t out h0
    rw [write_time_str]
    rw [show hour_am_pm t.hour = (0, 'A') by rw [h0]; decide]
    rw [show natDigits (0, 'A').1 = ['0'] from natDigits_small 0 (by omega)]
    simp
  · intro h hh
    have h1 : ¬ h ≥ 12 := by omega
    simp [hour_am_pm, h1]
  · intro h h13 _
    have h1 : h ≥ 12 := by omega
    have h2 : h ≠ 12 := by omega
    simp [hour_am_pm, h1, h2]

theorem claim_c10_witness :
    ({ hour := 0, minute := 7, second := 9, year := 2024, month := 5, day := 3 : Time }.hour = 0)
    ∧ write_time false
        { hour := 0, minute := 7, second := 9, year := 2024, month := 5, day := 3 } ([] : Str) =
      [] ++ ' ' :: ('0' :: ':' :: (pad2 7
        ++ ':' :: (pad2 9
        ++ '-' :: 'A' :: 'M' :: '-'
          :: (intDigits 2024 ++ '/' :: (natDigits 5 ++ '/' :: natDigits 3)))))
    ∧ (13 : Nat) ≤ 14 ∧ (14 : Nat) ≤ 23 ∧ hour_am_pm 14 = (14 - 12, 'P') :=
  ⟨rfl,
    claim_c10.1 { hour := 0, minute := 7, second := 9, year := 2024, month := 5, day := 3 } []
      rfl,
    by decide, by decide,
    claim_c10.2.2.2 14 (by decide) (by decide)⟩

/-- C3: on a plain string sink, a field named `message` recorded as a
string value `v` emits exactly a newline followed by `v` verbatim; a
field with any other name emits a newline, the name, `: `, and the
value's text/debug representation; in particular `message = "hi"`
yields `"\nhi"` and `count = 5` yields `"\ncount: 5"`. -/
theorem claim_c3 :
    (∀ (out v : Str),
      record_one out (("message".data), FieldValue.str v) = out ++ '\n' :: v)
    ∧ (∀ (out name : Str) (fv : FieldValue), name ≠ ("message".data) →
        record_one out (name, fv) = out ++ '\n' :: (name ++ ':' :: ' ' :: valueText fv))
    ∧ record_one ([] : Str) (("message".data), FieldValue.str ("hi".data)) = ("\nhi".data)
    ∧ record_one ([] : Str) (("count".data), FieldValue.u64 5) = ("\ncount: 5".data) := by
  refine ⟨?_, ?_, by decide, by decide⟩
  · intro out v
    simp [record_one, write_field]
  · intro out name fv h
    cases fv <;>
      simp [record_one, write_field, valueText, h, show (": ".data) = [':', ' '] from rfl]

theorem claim_c3_witness :
    ("count".data) ≠ ("message".data)
    ∧ record_one ([] : Str) (("count".data), FieldValue.u64 5) =
        [] ++ '\n' :: (("count".data) ++ ':' :: ' ' :: valueText (FieldValue.u64 5)) :=
  ⟨by decide, claim_c3.2.1 [] ("count".data) (FieldValue.u64 5) (by decide)⟩

/-- C6: every call to `with_local_buf` returns the result of running the
supplied closure on some buffer (it never panics or deadlocks), and a
call made while the slot is already borrowed — or after the
thread-local was destroyed — runs the closure on a freshly allocated
empty buffer, returns its result, and leaves the slot (including the
outer call's buffer contents) unchanged. -/
theorem claim_c6 {α : Type} (st : LocalBufState) (f : Str → Str × α) :
    (∃ b : Str, (with_local_buf st f).1 = (f b).2)
    ∧ (st.borrowed = true ∨ st.destroyed = true →
        with_local_buf st f = ((f []).2, st)) := by
  constructor
  · by_cases h : st.destroyed = false ∧ st.borrowed = false
    · exact ⟨st.buf, by simp [with_local_buf, h]⟩
    · exact ⟨[], by simp [with_local_buf, h]⟩
  · intro h
    have hc : ¬ (st.destroyed = false ∧ st.borrowed = false) := by
      rcases h with h | h <;> simp [h]
    simp [with_local_buf, hc]

theorem claim_c6_witness :
    (({ destroyed := false, borrowed := true, buf := ("ab".data) : LocalBufState }).borrowed = true
      ∨ ({ destroyed := false, borrowed := true, buf := ("ab".data) : LocalBufState }).destroyed = true)
    ∧ with_local_buf { destroyed := false, borrowed := true, buf := ("ab".data) }
        (fun b => (b ++ ['x'], b.length)) =
      (((fun (b : Str) => (b ++ ['x'], b.length)) []).2,
        { destroyed := false, borrowed := true, buf := ("ab".data) }) :=
  ⟨Or.inl rfl,
    (claim_c6 { destroyed := false, borrowed := true, buf := ("ab".data) }
      (fun b => (b ++ ['x'], b.length))).2 (Or.inl rfl)⟩

theorem write_field_append (out name : Str) :
    write_field out name = out ++ write_field [] name := by
  by_cases h : name ≠ ("message".data) <;> simp [write_field, h]

theorem record_one_append (out : Str) (fv : Str × FieldValue) :
    record_one out fv = out ++ record_one [] fv := by
  obtain ⟨name, v⟩ := fv
  cases v <;>
    by_cases h : name = ("message".data) <;>
      simp [record_one, write_field_append out, h]

theorem record_all_append (values : List (Str × FieldValue)) :
    ∀ out : Str, record_all out values = out ++ record_all [] values := by
  induction values with
  | nil => intro out; simp [record_all]
  | cons v vs ih =>
    intro out
    show record_all (record_one out v) vs = _
    rw [ih (record_one out v), record_one_append out v]
    have h2 : record_all ([] : Str) (v :: vs) = record_one [] v ++ record_all [] vs := by
      show record_all (record_one [] v) vs = _
      rw [ih (record_one [] v)]
    rw [h2, List.append_assoc]

/-- C9: recording further fields on a still-open span only appends the
rendered field text to the end of the span's cached buffer — the bytes
before the stored prefix-end offset, the offset itself and the
creation timestamp are unchanged. -/
theorem claim_c9 (data : SpanData) (values : List (Str × FieldValue))
    (h : data.prefix_end_index ≤ data.content.length) :
    (on_record data values).content = data.content ++ record_all [] values
    ∧ (on_record data values).prefix_end_index = data.prefix_end_index
    ∧ (on_record data values).timestamp = data.timestamp
    ∧ (on_record data values).content.take data.prefix_end_index =
        data.content.take data.prefix_end_index := by
  refine ⟨record_all_append values data.content, rfl, rfl, ?_⟩
  show (record_all data.content values).take data.prefix_end_index = _
  rw [record_all_append values data.content, List.take_append_of_le_length h]

theorem claim_c9_witness :
    (({ content := ("p".data), prefix_end_index := 1, timestamp := 7 : SpanData }).prefix_end_index
      ≤ ({ content := ("p".data), prefix_end_index := 1, timestamp := 7 : SpanData }).content.length)
    ∧ (on_record { content := ("p".data), prefix_end_index := 1, timestamp := 7 }
        [(("x".data), FieldValue.u64 1)]).content =
      ("p".data) ++ record_all [] [(("x".data), FieldValue.u64 1)] :=
  ⟨by decide,
    (claim_c9 { content := ("p".data), prefix_end_index := 1, timestamp := 7 }
      [(("x".data), FieldValue.u64 1)] (by decide)).1⟩

theorem digitChar_ne_nl (m : Nat) (hm : m < 16) : Nat.digitChar m ≠ '\n' := by
  interval_cases m <;> decide

theorem digitChar_ne_esc (m : Nat) (hm : m < 16) : Nat.digitChar m ≠ '\x1b' := by
  interval_cases m <;> decide

theorem natDigitsCore_chars (fuel : Nat) :
    ∀ n c, c ∈ natDigitsCore fuel n → ∃ m, m < 16 ∧ c = Nat.digitChar m := by
  induction fuel with
  | zero => intro n c h; simp [natDigitsCore] at h
  | succ f ih =>
    intro n c h
    simp only [natDigitsCore] at h
    split at h
    · simp at h
      exact ⟨n, by omega, h⟩
    · rw [List.mem_append] at h
      rcases h with h | h
      · exact ih (n / 10) c h
      · simp at h
        exact ⟨n % 10, by omega, h⟩

theorem natDigits_no_nl (n : Nat) : '\n' ∉ natDigits n := by
  intro h
  obtain ⟨m, hm, he⟩ := natDigitsCore_chars (n + 1) n '\n' h
  exact digitChar_ne_nl m hm he.symm

theorem natDigits_no_esc (n : Nat) : '\x1b' ∉ natDigits n := by
  intro h
  obtain ⟨m, hm, he⟩ := natDigitsCore_chars (n + 1) n '\x1b' h
  exact digitChar_ne_esc m hm he.symm

theorem hexDigitsCore_chars (fuel : Nat) :
    ∀ n c, c ∈ hexDigitsCore fuel n → ∃ m, m < 16 ∧ c = Nat.digitChar m := by
  induction fuel with
  | zero => intro n c h; simp [hexDigitsCore] at h
  | succ f ih =>
    intro n c h
    simp only [hexDigitsCore] at h
    split at h
    · simp at h
      exact ⟨n, by omega, h⟩
    · rw [List.mem_append] at h
      rcases h with h | h
      · exact ih (n / 16) c h
      · simp at h
        exact ⟨n % 16, by omega, h⟩

theorem hexDigits_no_esc (n : Nat) : '\x1b' ∉ hexDigits n := by
  intro h
  obtain ⟨m, hm, he⟩ := hexDigitsCore_chars (n + 1) n '\x1b' h
  exact digitChar_ne_esc m hm he.symm

theorem intDigits_no_esc (i : Int) : '\x1b' ∉ intDigits i := by
  unfold intDigits
  split <;> simp [natDigits_no_esc]

theorem ryuSecs_chars (s ms : Nat) (hms : ms < 1000) :
    ∀ c, c ∈ ryuSecs s ms →
      c ∈ natDigits s ∨ c = '.' ∨ ∃ m, m < 16 ∧ c = Nat.digitChar m := by
  intro c h
  unfold ryuSecs at h
  rw [List.mem_append] at h
  rcases h with h | h
  · exact Or.inl h
  · rw [List.mem_cons] at h
    rcases h with h | h
    · exact Or.inr (Or.inl h)
    · refine Or.inr (Or.inr ?_)
      split at h
      · simp only [List.mem_cons, List.not_mem_nil, or_false] at h
        rcases h with h | h | h
        · exact ⟨ms / 100, by omega, h⟩
        · exact ⟨ms / 10 % 10, by omega, h⟩
        · exact ⟨ms % 10, by omega, h⟩
      · split at h
        · simp only [List.mem_cons, List.not_mem_nil, or_false] at h
          rcases h with h | h
          · exact ⟨ms / 100, by omega, h⟩
          · exact ⟨ms / 10 % 10, by omega, h⟩
        · simp only [List.mem_cons, List.not_mem_nil, or_false] at h
          exact ⟨ms / 100, by omega, h⟩

theorem ryuSecs_no_nl (s ms : Nat) (hms : ms < 1000) : '\n' ∉ ryuSecs s ms := by
  intro h
  rcases ryuSecs_chars s ms hms '\n' h with h | h | ⟨m, hm, he⟩
  · exact natDigits_no_nl s h
  · exact absurd h (by decide)
  · exact digitChar_ne_nl m hm he.symm

theorem ryuSecs_no_esc (s ms : Nat) (hms : ms < 1000) : '\x1b' ∉ ryuSecs s ms := by
  intro h
  rcases ryuSecs_chars s ms hms '\x1b' h with h | h | ⟨m, hm, he⟩
  · exact natDigits_no_esc s h
  · exact absurd h (by decide)
  · exact digitChar_ne_esc m hm he.symm

theorem ryuSecs_has_dot (s ms : Nat) : '.' ∈ ryuSecs s ms := by
  unfold ryuSecs
  simp

theorem processChars_id (n : Nat) (s : Str) (hs : '\n' ∉ s) : processChars n s = s := by
  induction s with
  | nil => simp [processChars]
  | cons c cs ih =>
    simp only [List.mem_cons, not_or] at hs
    rw [processChars_cons_other n c cs (fun h => hs.1 h.symm)]
    rw [ih hs.2]

theorem indented_push_nonl (ib : Indented Str) (c : Char) (hc : c ≠ '\n') :
    Indented.push ib c = { output := ib.output ++ [c], indent := ib.indent } := by
  rw [indented_push_eq]
  simp [hc]

theorem indented_push_str_nonl (ib : Indented Str) (s : Str) (hs : '\n' ∉ s) :
    Indented.push_str ib s = { output := ib.output ++ s, indent := ib.indent } := by
  rw [push_str_eq, processChars_id ib.indent s hs]

theorem write_elapsed_false_none (tp : Duration) (ib : Indented Str)
    (hc : ¬(tp.subsec_nanos ≥ 1000000 ∨ tp.secs > 0)) :
    write_elapsed false tp ib = ib := by
  simp [write_elapsed, hc]

theorem write_elapsed_false_ms (tp : Duration) (ib : Indented Str)
    (hc : tp.subsec_nanos ≥ 1000000 ∨ tp.secs > 0) (hz : tp.secs = 0) :
    write_elapsed false tp ib =
      { output := ib.output ++ (" (".data) ++ natDigits (tp.subsec_nanos / 1000000)
          ++ ("ms ago)".data),
        indent := ib.indent } := by
  simp only [write_elapsed, if_pos hc, if_pos hz, Bool.false_eq_true, if_false]
  rw [indented_push_nonl _ ' ' (by decide)]
  rw [indented_push_nonl _ '(' (by decide)]
  rw [indented_push_str_nonl _ _ (natDigits_no_nl _)]
  rw [indented_push_nonl _ 'm' (by decide)]
  rw [indented_push_str_nonl _ _ (by decide : '\n' ∉ ("s ago)".data))]
  simp [show (" (".data) = [' ', '('] from rfl,
    show ("ms ago)".data) = 'm' :: ("s ago)".data) from rfl]

theorem write_elapsed_false_secs (tp : Duration) (ib : Indented Str)
    (hc : tp.subsec_nanos ≥ 1000000 ∨ tp.secs > 0) (hz : tp.secs ≠ 0)
    (hn : tp.subsec_nanos < 1000000000) :
    write_elapsed false tp ib =
      { output := ib.output ++ (" (".data)
          ++ ryuSecs tp.secs (tp.subsec_nanos / 1000000) ++ ("s ago)".data),
        indent := ib.indent } := by
  simp only [write_elapsed, if_pos hc, if_neg hz, Bool.false_eq_true, if_false]
  rw [indented_push_nonl _ ' ' (by decide)]
  rw [indented_push_nonl _ '(' (by decide)]
  rw [indented_push_str_nonl _ _ (ryuSecs_no_nl _ _ (by omega))]
  rw [indented_push_str_nonl _ _ (by decide : '\n' ∉ ("s ago)".data))]
  simp [show (" (".data) = [' ', '('] from rfl]

/-- C8: the elapsed-time annotation for an ancestor span is emitted if
and only if the elapsed duration (event instant minus span creation
instant) is at least one millisecond; when emitted with color off it is
exactly a space, `(`, then for sub-second durations the integer
millisecond count followed by `ms ago)` and otherwise the seconds as a
decimal number containing a fractional point, followed by `s ago)`. -/
theorem claim_c8 (ib : Indented Str) (event_ts span_ts : Nat) (h : span_ts ≤ event_ts) :
    (event_ts - span_ts < 1000000 →
      write_elapsed false (Duration.ofNanos (event_ts - span_ts)) ib = ib)
    ∧ (1000000 ≤ event_ts - span_ts → event_ts - span_ts < 1000000000 →
        (write_elapsed false (Duration.ofNanos (event_ts - span_ts)) ib).output =
          ib.output ++ (" (".data)
            ++ natDigits ((event_ts - span_ts) / 1000000) ++ ("ms ago)".data))
    ∧ (1000000000 ≤ event_ts - span_ts →
        (write_elapsed false (Duration.ofNanos (event_ts - span_ts)) ib).output =
          ib.output ++ (" (".data)
            ++ ryuSecs ((event_ts - span_ts) / 1000000000)
                ((event_ts - span_ts) % 1000000000 / 1000000) ++ ("s ago)".data)
        ∧ '.' ∈ ryuSecs ((event_ts - span_ts) / 1000000000)
            ((event_ts - span_ts) % 1000000000 / 1000000)) := by
  refine ⟨?_, ?_, ?_⟩
  · intro h1
    exact write_elapsed_false_none _ ib (by simp only [Duration.ofNanos]; omega)
  · intro h1 h2
    rw [write_elapsed_false_ms _ ib (by simp only [Duration.ofNanos]; omega)
      (by simp only [Duration.ofNanos]; omega)]
    simp only [Duration.ofNanos]
    rw [Nat.mod_eq_of_lt h2]
  · intro h1
    refine ⟨?_, ryuSecs_has_dot _ _⟩
    rw [write_elapsed_false_secs _ ib (by simp only [Duration.ofNanos]; omega)
      (by simp only [Duration.ofNanos]; omega) (by simp only [Duration.ofNanos]; omega)]
    simp only [Duration.ofNanos]

theorem claim_c8_witness :
    (0 : Nat) ≤ 2500000000
    ∧ (1000000000 : Nat) ≤ 2500000000 - 0
    ∧ (write_elapsed false (Duration.ofNanos (2500000000 - 0))
        { output := ("x".data), indent := 8 }).output =
      ("x".data) ++ (" (".data)
        ++ ryuSecs ((2500000000 - 0) / 1000000000) ((2500000000 - 0) % 1000000000 / 1000000)
        ++ ("s ago)".data) :=
  ⟨by decide, by decide,
    ((claim_c8 { output := ("x".data), indent := 8 } 2500000000 0 (by decide)).2.2
      (by decide)).1⟩

theorem EscFree.append {a b : Str} (ha : EscFree a) (hb : EscFree b) : EscFree (a ++ b) := by
  intro h
  rcases List.mem_append.mp h with h | h
  · exact ha h
  · exact hb h

theorem EscFree.cons {c : Char} {s : Str} (hc : c ≠ '\x1b') (hs : EscFree s) :
    EscFree (c :: s) := by
  intro h
  rcases List.mem_cons.mp h with h | h
  · exact hc h.symm
  · exact hs h

theorem escFree_nil : EscFree [] := by
  intro h
  exact absurd h (List.not_mem_nil _)

theorem escFree_replicate (n : Nat) : EscFree (List.replicate n ' ') := by
  intro h
  have := (List.mem_replicate.mp h).2
  exact absurd this (by decide)

theorem escFree_natDigits (n : Nat) : EscFree (natDigits n) := natDigits_no_esc n

theorem escFree_intDigits (i : Int) : EscFree (intDigits i) := intDigits_no_esc i

theorem escFree_pad2 (n : Nat) : EscFree (pad2 n) := by
  unfold pad2
  split <;> exact EscFree.append (by intro h; simp at h) (natDigits_no_esc n)

theorem splitModPath_cons_eq (c0 : Char) (rest : Str)
    (hne : ∀ r, c0 = ':' → rest = ':' :: r → False) :
    splitModPath (c0 :: rest) =
      (match splitModPath rest with
        | [] => [[c0]]
        | seg :: segs => (c0 :: seg) :: segs) := by
  rw [splitModPath.eq_def]
  split
  · rename_i heq
    exact absurd heq (by simp)
  · rename_i r heq
    injection heq with h1 h2
    exact (hne r h1 h2).elim
  · rename_i c r hne2 heq
    injection heq with h1 h2
    subst h1
    subst h2
    rfl

theorem splitModPath_sub (s : Str) :
    ∀ seg ∈ splitModPath s, ∀ c ∈ seg, c ∈ s := by
  induction s using splitModPath.induct with
  | case1 =>
    intro seg hseg c hc
    simp [splitModPath] at hseg
    subst hseg
    exact absurd hc (List.not_mem_nil c)
  | case2 rest ih =>
    intro seg hseg c hc
    simp only [splitModPath, List.mem_cons] at hseg
    rcases hseg with h | h
    · subst h; exact absurd hc (List.not_mem_nil c)
    · have := ih seg h c hc
      simp [this]
  | case3 c0 rest hne hsp ih =>
    exact absurd hsp (splitModPath_ne_nil rest)
  | case4 c0 rest hne first segs hsp ih =>
    intro seg hseg c hc
    have hstep : splitModPath (c0 :: rest) = (c0 :: first) :: segs := by
      rw [splitModPath_cons_eq c0 rest hne, hsp]
    rw [hstep] at hseg
    rcases List.mem_cons.mp hseg with h | h
    · subst h
      rcases List.mem_cons.mp hc with h | h
      · simp [h]
      · have := ih first (by rw [hsp]; exact List.mem_cons_self first segs) c h
        simp [this]
    · have := ih seg (by rw [hsp]; exact List.mem_cons_of_mem first h) c hc
      simp [this]

theorem escFree_intercalate (segs : List Str) (h : ∀ seg ∈ segs, EscFree seg) :
    EscFree (List.intercalate ['/'] segs) := by
  cases segs with
  | nil => simpa [List.intercalate] using escFree_nil
  | cons first parts =>
    rw [intercalate_slash]
    refine EscFree.append (h first (List.mem_cons_self first parts)) ?_
    intro hm
    rw [List.mem_flatMap] at hm
    obtain ⟨p, hp, hcp⟩ := hm
    rcases List.mem_cons.mp hcp with hh | hh
    · exact absurd hh (by decide)
    · exact h p (List.mem_cons_of_mem first hp) hh

theorem write_icon_level_esc (align : Bool) (level : Level) (out : Str)
    (h : EscFree out) : EscFree (write_icon_level false align level out) := by
  rw [write_icon_level_str]
  refine EscFree.append (EscFree.append (EscFree.append h ?_) ?_) ?_
  · split
    · intro hm; simp at hm
    · exact escFree_nil
  · cases level <;> (intro hm; revert hm; decide)
  · intro hm; simp at hm

theorem write_module_path_esc (mp : Str) (out : Str) (hmp : EscFree mp)
    (h : EscFree out) : EscFree (write_module_path mp out) := by
  rw [write_module_path_str]
  refine EscFree.append h (escFree_intercalate _ ?_)
  intro seg hseg hm
  exact hmp (splitModPath_sub mp seg hseg '\x1b' hm)

theorem write_line_esc (line : Option Nat) (out : Str) (h : EscFree out) :
    EscFree (write_line false line out) := by
  rw [write_line_str]
  refine EscFree.append h ?_
  cases line with
  | none => exact escFree_nil
  | some l => exact EscFree.cons (by decide) (natDigits_no_esc l)

theorem hour_am_pm_snd (h : Nat) : (hour_am_pm h).2 = 'A' ∨ (hour_am_pm h).2 = 'P' := by
  unfold hour_am_pm
  split
  · split <;> simp
  · simp

theorem write_time_esc (t : Time) (out : Str) (h : EscFree out) :
    EscFree (write_time false t out) := by
  rw [write_time_str]
  refine EscFree.append h (EscFree.cons (by decide) ?_)
  refine EscFree.append (natDigits_no_esc _) (EscFree.cons (by decide) ?_)
  refine EscFree.append (escFree_pad2 _) (EscFree.cons (by decide) ?_)
  refine EscFree.append (escFree_pad2 _) (EscFree.cons (by decide) ?_)
  refine EscFree.cons ?_ (EscFree.cons (by decide) (EscFree.cons (by decide) ?_))
  · rcases hour_am_pm_snd t.hour with hh | hh <;> rw [hh] <;> decide
  · refine EscFree.append (intDigits_no_esc _) (EscFree.cons (by decide) ?_)
    exact EscFree.append (natDigits_no_esc _) (EscFree.cons (by decide) (natDigits_no_esc _))

theorem write_prefix_false_esc (meta : Metadata) (options : PrefixOptions) (out : Str)
    (hmp : EscFree meta.module_path) (h : EscFree out) :
    EscFree (write_prefix' false meta options out) := by
  simp only [write_prefix', Bool.false_eq_true, if_false]
  cases options.time with
  | none =>
    exact write_line_esc _ _ (write_module_path_esc _ _ hmp (write_icon_level_esc _ _ _ h))
  | some t =>
    exact write_time_esc t _
      (write_line_esc _ _ (write_module_path_esc _ _ hmp (write_icon_level_esc _ _ _ h)))

theorem processChars_esc (n : Nat) (s : Str) (hs : EscFree s) :
    EscFree (processChars n s) := by
  induction s with
  | nil => simpa [processChars] using escFree_nil
  | cons c cs ih =>
    have hc : c ≠ '\x1b' := fun he => hs (by simp [he])
    have hcs : EscFree cs := fun hm => hs (List.mem_cons_of_mem c hm)
    by_cases hnl : c = '\n'
    · subst hnl
      rw [processChars_cons_nl]
      exact EscFree.cons (by decide) (EscFree.append (escFree_replicate n) (ih hcs))
    · rw [processChars_cons_other n c cs hnl]
      exact EscFree.cons hc (ih hcs)

theorem indented_push_esc (ib : Indented Str) (c : Char) (hc : c ≠ '\x1b')
    (h : EscFree ib.output) : EscFree (Indented.push ib c).output := by
  rw [indented_push_eq]
  refine EscFree.append h ?_
  split
  · exact EscFree.cons (by decide) (escFree_replicate ib.indent)
  · exact EscFree.cons hc escFree_nil

theorem indented_push_str_esc (ib : Indented Str) (s : Str) (hs : EscFree s)
    (h : EscFree ib.output) : EscFree (Indented.push_str ib s).output := by
  rw [push_str_eq]
  exact EscFree.append h (processChars_esc ib.indent s hs)

theorem escapeDebugChar_esc (c : Char) : EscFree (escapeDebugChar c) := by
  unfold escapeDebugChar
  repeat' split
  all_goals try (intro hm; revert hm; decide)
  · refine EscFree.cons (by decide) (EscFree.cons (by decide) (EscFree.cons (by decide) ?_))
    exact EscFree.append (hexDigits_no_esc _) (EscFree.cons (by decide) escFree_nil)
  · rename_i h6
    refine EscFree.cons ?_ escFree_nil
    intro he
    subst he
    exact h6 (Or.inl (by decide))

theorem debugQuote_esc (v : Str) : EscFree (debugQuote v) := by
  unfold debugQuote
  refine EscFree.cons (by decide) (EscFree.append ?_ (EscFree.cons (by decide) escFree_nil))
  intro hm
  rw [List.mem_flatMap] at hm
  obtain ⟨c, _, hc⟩ := hm
  exact escapeDebugChar_esc c hc

@[simp] theorem sl_ind_push {σ : Type} [StringLike σ] (ib : Indented σ) (c : Char) :
    StringLike.push ib c = Indented.push ib c := rfl

@[simp] theorem sl_ind_push_str {σ : Type} [StringLike σ] (ib : Indented σ) (s : Str) :
    StringLike.push_str ib s = Indented.push_str ib s := rfl

theorem write_field_esc (ib : Indented Str) (name : Str) (hn : EscFree name)
    (h : EscFree ib.output) : EscFree (write_field ib name).output := by
  unfold write_field
  simp only [sl_ind_push, sl_ind_push_str]
  split
  · apply indented_push_str_esc _ _ (by decide : EscFree (": ".data))
    exact indented_push_str_esc _ _ hn (indented_push_esc _ _ (by decide) h)
  · exact indented_push_esc _ _ (by decide) h

theorem record_one_esc (ib : Indented Str) (fv : Str × FieldValue)
    (hfv : FieldEscFree fv) (h : EscFree ib.output) :
    EscFree (record_one ib fv).output := by
  obtain ⟨name, v⟩ := fv
  cases v with
  | str value =>
    simp only [FieldEscFree] at hfv
    obtain ⟨hn, hv⟩ := hfv
    simp only [record_one, sl_ind_push_str]
    split
    · exact indented_push_str_esc _ _ hv (write_field_esc _ _ hn h)
    · exact indented_push_str_esc _ _ (debugQuote_esc value) (write_field_esc _ _ hn h)
  | debug rendered =>
    simp only [FieldEscFree] at hfv
    obtain ⟨hn, hv⟩ := hfv
    simp only [record_one, sl_ind_push_str]
    exact indented_push_str_esc _ _ hv (write_field_esc _ _ hn h)
  | bool b =>
    simp only [FieldEscFree] at hfv
    obtain ⟨hn, -⟩ := hfv
    simp only [record_one, sl_ind_push_str]
    refine indented_push_str_esc _ _ ?_ (write_field_esc _ _ hn h)
    cases b <;> decide
  | u64 n =>
    simp only [FieldEscFree] at hfv
    obtain ⟨hn, -⟩ := hfv
    simp only [record_one, sl_ind_push_str]
    exact indented_push_str_esc _ _ (natDigits_no_esc n) (write_field_esc _ _ hn h)
  | u128 n =>
    simp only [FieldEscFree] at hfv
    obtain ⟨hn, -⟩ := hfv
    simp only [record_one, sl_ind_push_str]
    exact indented_push_str_esc _ _ (natDigits_no_esc n) (write_field_esc _ _ hn h)
  | i64 n =>
    simp only [FieldEscFree] at hfv
    obtain ⟨hn, -⟩ := hfv
    simp only [record_one, sl_ind_push_str]
    exact indented_push_str_esc _ _ (intDigits_no_esc n) (write_field_esc _ _ hn h)
  | i128 n =>
    simp only [FieldEscFree] at hfv
    obtain ⟨hn, -⟩ := hfv
    simp only [record_one, sl_ind_push_str]
    exact indented_push_str_esc _ _ (intDigits_no_esc n) (write_field_esc _ _ hn h)
  | f64 rendered =>
    simp only [FieldEscFree] at hfv
    obtain ⟨hn, hv⟩ := hfv
    simp only [record_one, sl_ind_push_str]
    exact indented_push_str_esc _ _ hv (write_field_esc _ _ hn h)

theorem record_all_esc (fields : List (Str × FieldValue)) :
    ∀ ib : Indented Str, (∀ fv ∈ fields, FieldEscFree fv) → EscFree ib.output →
      EscFree (record_all ib fields).output := by
  induction fields with
  | nil => intro ib _ h; exact h
  | cons fv fvs ih =>
    intro ib hf h
    show EscFree (record_all (record_one ib fv) fvs).output
    exact ih _ (fun x hx => hf x (List.mem_cons_of_mem fv hx))
      (record_one_esc ib fv (hf fv (List.mem_cons_self fv fvs)) h)

theorem write_elapsed_esc (tp : Duration) (ib : Indented Str)
    (hn : tp.subsec_nanos < 1000000000) (h : EscFree ib.output) :
    EscFree (write_elapsed false tp ib).output := by
  by_cases hc : tp.subsec_nanos ≥ 1000000 ∨ tp.secs > 0
  · by_cases hz : tp.secs = 0
    · rw [write_elapsed_false_ms tp ib hc hz]
      exact EscFree.append
        (EscFree.append (EscFree.append h (by decide)) (natDigits_no_esc _)) (by decide)
    · rw [write_elapsed_false_secs tp ib hc hz hn]
      exact EscFree.append
        (EscFree.append (EscFree.append h (by decide)) (ryuSecs_no_esc _ _ (by omega)))
        (by decide)
  · rw [write_elapsed_false_none tp ib hc]
    exact h

theorem render_span_esc (event_ts : Nat) (ib : Indented Str) (sv : SpanView)
    (hsv : SpanEscFree sv) (h : EscFree ib.output) :
    EscFree (render_span false event_ts ib sv).output := by
  obtain ⟨hcont, hname⟩ := hsv
  simp only [render_span]
  apply indented_push_str_esc
  · intro hm; exact hcont (List.drop_subset _ _ hm)
  · have hbase : EscFree (write_elapsed false
        (Duration.ofNanos (event_ts - sv.data.timestamp))
        { output := (Indented.push_str
            (Indented.push { output := ib.output, indent := ib.indent - 2 } '\n')
            (sv.data.content.take sv.data.prefix_end_index)).output,
          indent := (Indented.push_str
            (Indented.push { output := ib.output, indent := ib.indent - 2 } '\n')
            (sv.data.content.take sv.data.prefix_end_index)).indent + 2 }).output := by
      apply write_elapsed_esc _ _ (by simp only [Duration.ofNanos]; omega)
      show EscFree (Indented.push_str
        (Indented.push { output := ib.output, indent := ib.indent - 2 } '\n')
        (sv.data.content.take sv.data.prefix_end_index)).output
      apply indented_push_str_esc
      · intro hm; exact hcont (List.take_subset _ _ hm)
      · exact indented_push_esc _ _ (by decide) h
    split
    · apply indented_push_str_esc _ _ hname
      apply indented_push_esc _ _ (by decide)
      exact hbase
    · exact hbase

theorem foldl_render_span_esc (spans : List SpanView) (event_ts : Nat) :
    ∀ ib : Indented Str, (∀ sv ∈ spans, SpanEscFree sv) → EscFree ib.output →
      EscFree (spans.foldl (render_span false event_ts) ib).output := by
  induction spans with
  | nil => intro ib _ h; exact h
  | cons sv svs ih =>
    intro ib hsp h
    show EscFree (svs.foldl (render_span false event_ts) (render_span false event_ts ib sv)).output
    exact ih _ (fun x hx => hsp x (List.mem_cons_of_mem sv hx))
      (render_span_esc event_ts ib sv (hsp sv (List.mem_cons_self sv svs)) h)

/-- C7 (counterexample to the claim as stated): with color disabled, an
event whose `message` field contains the escape character renders to
output that does contain the escape character — the claim fails for
inputs whose own text carries 0x1B. -/
theorem claim_c7_counterexample :
    '\x1b' ∈ on_event false 0 none { level := .info, module_path := ("m".data), line := none }
      [(("message".data), FieldValue.str ['\x1b'])] none := by decide

/-- C7 (amended): with color disabled the renderer itself emits no
escape character: for every event whose own text inputs are free of
0x1B — the module path, each field's name and carried string/debug/ryu
text, and each ancestor span's cached buffer and name — the full
rendered output contains no 0x1B anywhere. -/
theorem claim_c7 (event_ts : Nat) (time : Option Time) (meta : Metadata)
    (fields : List (Str × FieldValue)) (scope : Option (List SpanView))
    (hmp : EscFree meta.module_path)
    (hf : ∀ fv ∈ fields, FieldEscFree fv)
    (hs : ∀ spans, scope = some spans → ∀ sv ∈ spans, SpanEscFree sv) :
    EscFree (on_event false event_ts time meta fields scope) := by
  simp only [on_event]
  refine EscFree.append ?_ (by decide)
  have hpf : EscFree (write_prefix' false meta { align := true, time := time } ([] : Str)) :=
    write_prefix_false_esc meta _ [] hmp escFree_nil
  have hbuf := record_all_esc fields
    ⟨write_prefix' false meta { align := true, time := time } [], 8⟩ hf hpf
  cases scope with
  | none => exact hbuf
  | some spans => exact foldl_render_span_esc spans event_ts _ (hs spans rfl) hbuf

theorem claim_c7_witness :
    EscFree (("app".data))
    ∧ EscFree (on_event false 0 none { level := .info, module_path := ("app".data), line := none }
        [] none) :=
  ⟨by decide,
    claim_c7 0 none { level := .info, module_path := ("app".data), line := none } [] none
      (by decide) (fun fv hfv => absurd hfv (List.not_mem_nil fv))
      (fun spans hsp => absurd hsp (by simp))⟩

theorem log_render_error (color : Bool) (time : Option Time) (meta : Metadata)
    (args : LogArgs) (msg : String)
    (h : log_render color time meta args = Except.error msg) : msg = "fmt error" := by
  cases args with
  | str s =>
    by_cases hs : s ≠ [] <;> simp [log_render, hs] at h
  | fmt r =>
    cases r with
    | ok rendered => simp [log_render] at h
    | error e =>
      simp [log_render] at h
      exact h.symm

/-- C1 (counterexample to the claim as stated): a logging call whose
destination refuses the write panics (the source's
`expect("io error")`) instead of discarding the failure or delivering
it to a callback — at this concrete input the call's outcome is a
panic. -/
theorem claim_c1_counterexample :
    Logger.log false none { level := .info, module_path := ("m".data), line := none }
      (LogArgs.str ("hi".data)) (fun _ => Except.error ()) =
      Outcome.panicked ("io error") := rfl

/-- C1 (amended): a render or write failure during a logging call is
neither silently discarded nor delivered to any callback — the call
panics, with `fmt error` when the format template fails and `io error`
when the destination write fails; only a failure-free call returns
normally, carrying exactly the bytes it wrote. -/
theorem claim_c1 (color : Bool) (time : Option Time) (meta : Metadata)
    (args : LogArgs) (w : Str → Except Unit Unit) :
    ((∃ b, Logger.log color time meta args w = Outcome.ok b)
      ∨ Logger.log color time meta args w = Outcome.panicked ("fmt error")
      ∨ Logger.log color time meta args w = Outcome.panicked ("io error"))
    ∧ (∀ e, args = LogArgs.fmt (Except.error e) →
        Logger.log color time meta args w = Outcome.panicked ("fmt error"))
    ∧ (∀ buf, log_render color time meta args = Except.ok buf →
        (w buf = Except.error () →
          Logger.log color time meta args w = Outcome.panicked ("io error"))
        ∧ (w buf = Except.ok () →
          Logger.log color time meta args w = Outcome.ok buf)) := by
  refine ⟨?_, ?_, ?_⟩
  · cases hr : log_render color time meta args with
    | error msg =>
      right; left
      rw [log_render_error color time meta args msg hr] at hr
      simp [Logger.log, hr]
    | ok buf =>
      cases hw : w buf with
      | ok u => exact Or.inl ⟨buf, by simp [Logger.log, hr, hw]⟩
      | error e => exact Or.inr (Or.inr (by simp [Logger.log, hr, hw]))
  · intro e he
    subst he
    simp [Logger.log, log_render]
  · intro buf hr
    constructor
    · intro hw
      simp [Logger.log, hr, hw]
    · intro hw
      simp [Logger.log, hr, hw]

theorem claim_c1_witness :
    log_render false none { level := .info, module_path := ("m".data), line := none }
      (LogArgs.str ("hi".data)) = Except.ok (" ● info m\n        hi\n".data)
    ∧ Logger.log false none { level := .info, module_path := ("m".data), line := none }
        (LogArgs.str ("hi".data)) (fun _ => Except.error ()) = Outcome.panicked ("io error") :=
  ⟨rfl,
    ((claim_c1 false none { level := .info, module_path := ("m".data), line := none }
      (LogArgs.str ("hi".data)) (fun _ => Except.error ())).2.2
      (" ● info m\n        hi\n".data) rfl).1 rfl⟩
